import Mathlib

/-!
Verification of the two-script news sentiment pipeline
(`backend/scripts/fetchNews.py` and `backend/scripts/analyzeSentiment.py`).

The Python data is JSON: we embed JSON values as `JValue`, Python dicts as
insertion-ordered association lists (`dictGet`, `dictSet` mirror `dict.get`
and `d[k] = v`), and Python truthiness as `JValue.falsy`.  Numbers are
modelled as exact decimals `Decimal` (mantissa and number of fractional
digits); an integer has `e = 0`.  This captures every numeral the pipeline
serialises (Python `repr` of a float is a finite decimal); binary
floating-point representation issues are outside the model.

External collaborators (the HTTP client, the transformers sentiment
pipeline, the file system) are passed in as explicit oracles, so each
script body is a pure function of its inputs and oracles.
-/

namespace GlobalSentiment

/-- Exact decimal number: the value `m / 10 ^ e`.  Integers have `e = 0`;
a Python float printed by `repr` as `d₁…dₖ.f₁…fₑ` has `e` fractional
digits. -/
structure Decimal where
  m : Int
  e : Nat
deriving Repr, DecidableEq

/-- Rational value of a decimal. -/
def Decimal.toRat (d : Decimal) : ℚ := (d.m : ℚ) / (10 : ℚ) ^ d.e

/-- JSON values.  Objects are insertion-ordered association lists, matching
Python dicts deserialised by `json.load`. -/
inductive JValue where
  | null : JValue
  | bool (b : Bool) : JValue
  | num (d : Decimal) : JValue
  | str (s : String) : JValue
  | arr (elems : List JValue) : JValue
  | obj (fields : List (String × JValue)) : JValue

/-- An Article record: a Python dict from string keys to JSON values,
in insertion order. -/
abbrev Article := List (String × JValue)

/-- Python `d.get(k)`: the value at the first (unique, for a real dict)
occurrence of `k`, else `None` (here `none`). -/
def dictGet : List (String × JValue) → String → Option JValue
  | [], _ => none
  | (k', v) :: rest, k => if k' = k then some v else dictGet rest k

/-- Python `d.get(k, default)`. -/
def dictGetD (d : List (String × JValue)) (k : String) (dflt : JValue) : JValue :=
  (dictGet d k).getD dflt

/-- Python `d[k] = v`: replace the value at an existing key in place
(insertion position kept), else append the new pair at the end. -/
def dictSet : List (String × JValue) → String → JValue → List (String × JValue)
  | [], k, v => [(k, v)]
  | (k', v') :: rest, k, v =>
    if k' = k then (k', v) :: rest else (k', v') :: dictSet rest k v

/-- Python truthiness (`not x` is `falsy x`): `None`, `False`, zero, the
empty string, list and dict are falsy. -/
def JValue.falsy : JValue → Bool
  | .null => true
  | .bool b => !b
  | .num d => d.m == 0
  | .str s => s.isEmpty
  | .arr xs => xs.isEmpty
  | .obj fs => fs.isEmpty

/-- Truthiness of a `dict.get` result: `None` (absent) is falsy. -/
def truthyOpt : Option JValue → Bool
  | none => false
  | some v => !v.falsy

/-- Truthiness of `os.getenv`'s result: unset (`None`) or the empty
string is falsy. -/
def strOptTruthy : Option String → Bool
  | none => false
  | some s => !s.isEmpty

/-! ## Analyzer (`analyzeSentiment.py`) -/

/-- Output of the external transformers sentiment pipeline on one title:
the `label` and `score` fields of the first element of the returned list
(`result[0]['label']`, `result[0]['score']`).  The pipeline is an opaque
collaborator; per its interface it always returns at least one element,
so we model it as a total function on the title value. -/
structure PipeResult where
  label : String
  score : Decimal

/-- One classifier call result attached to an article, exactly as lines
32–41 of `analyzeSentiment.py` do: `article['sentiment'] = label` then
`article['sentiment_score'] = score`. -/
def augment (classify : JValue → PipeResult) (a : Article) : Article :=
  match dictGet a "title" with
  | none => a
  | some t =>
    dictSet (dictSet a "sentiment" (.str (classify t).label))
      "sentiment_score" (.num (classify t).score)

/-- Whether the analyzer loop keeps a record: `title = article.get('title')`
is truthy (`if not title: continue` is not taken). -/
def hasTitle (a : Article) : Bool := truthyOpt (dictGet a "title")

/-- The loop of `analyzeSentiment` (lines 24–41): skip records whose title
is absent or falsy, classify the rest, attach `sentiment` and
`sentiment_score`, and collect in input order. -/
def analyzeLoop (classify : JValue → PipeResult) : List Article → List Article
  | [] => []
  | a :: rest =>
    match dictGet a "title" with
    | none => analyzeLoop classify rest
    | some t =>
      if t.falsy then
        analyzeLoop classify rest
      else
        (dictSet (dictSet a "sentiment" (.str (classify t).label))
          "sentiment_score" (.num (classify t).score)) :: analyzeLoop classify rest

/-- Result of one `analyzeSentiment(file_path)` call: the returned value
(`None` on a missing file) and the console lines printed. -/
structure AnalyzeOut where
  result : Option (List Article)
  printed : List String

/-- The function `analyzeSentiment(file_path)`.  The file system oracle
`fs` maps a path to the article collection parsed from the file there
(`json.load` of an existing well-formed file), or `none` when opening
raises `FileNotFoundError`, which the function catches. -/
def analyzeSentiment (classify : JValue → PipeResult)
    (fs : String → Option (List Article)) (file_path : String) : AnalyzeOut :=
  let loading := ["Loading the sentiment analysis model", "Model loaded successfully"]
  match fs file_path with
  | none =>
    { result := none
      printed := loading ++ ["Error: The file " ++ file_path ++ " was not found."] }
  | some articles =>
    { result := some (analyzeLoop classify articles)
      printed := loading ++
        ["Analyzing sentiment for " ++ toString articles.length ++ " articles...",
         "Analysis complete."] }

/-- The guard of the `__main__` block (line 54): the output file is written
only when `if analyzed_data:` holds, i.e. the result is truthy (not `None`
and not the empty list). -/
def analyzerSaves : Option (List Article) → Bool
  | none => false
  | some arts => !arts.isEmpty

/-- Top-level names bound in `analyzeSentiment.py` at the moment the
`__main__` block calls its analysis function (line 52): the imports
(`os`, `json`, `pipeline`), the single function definition
`analyzeSentiment`, and the local `input_file` assigned on line 49. -/
def analyzerScriptDefs : List String :=
  ["os", "json", "pipeline", "analyzeSentiment", "input_file"]

/-- The name the `__main__` block actually calls on line 52. -/
def analyzerEntryCallee : String := "analyze_headlines"

/-- Command-line invocation of `analyzeSentiment.py`: Python resolves the
callee name on line 52; an unbound name raises `NameError` before any
analysis, output writing or printing of results happens. -/
def analyzerCliInvocation (classify : JValue → PipeResult)
    (fs : String → Option (List Article)) (input_file : String) :
    Except String (Option (List Article)) :=
  if analyzerScriptDefs.contains analyzerEntryCallee then
    .ok (analyzeSentiment classify fs input_file).result
  else
    .error ("NameError: name '" ++ analyzerEntryCallee ++ "' is not defined")

/-! ## Fetcher (`fetchNews.py`) -/

/-- The query parameters `fetchNews.py` sends (lines 20–25). -/
structure ReqParams where
  category : String
  language : String
  apiKey : String
  pageSize : Nat
deriving Repr, DecidableEq

/-- The parameter dict built on lines 20–25 of `fetchNews.py`:
the given category and language, the environment's API key, and
`pageSize = 100` ("the max number of articles in one request"). -/
def sentParams (apiKey : Option String) (category language : String) : ReqParams :=
  { category := category, language := language
    apiKey := apiKey.getD "", pageSize := 100 }

/-- Outcome of the one HTTP exchange, as seen by the script: a completed
response with a status code and a parsed JSON object body, or a
`requests` exception (timeout, connection error) raised by
`requests.get`.  The News API's body is a JSON object; `response.json()`
is an opaque collaborator returning it parsed. -/
inductive HttpOutcome where
  | response (status : Nat) (body : List (String × JValue))
  | timeout
  | connError

/-- Rendering of the caught `requests` exception (`str(e)` in
`print(f"An error occurred: {e}")`), modelled abstractly: the HTTP error
from `raise_for_status` names the status; the others name their kind. -/
def causeText : HttpOutcome → String
  | .response s _ => toString s ++ " Error"
  | .timeout => "Timeout"
  | .connError => "ConnectionError"

/-- `requests.Response.raise_for_status` raises `HTTPError` exactly for
client errors (4xx) and server errors (5xx). -/
def raisesForStatus (status : Nat) : Bool := 400 ≤ status && status < 600

/-- Result of one `get_headlines_by_category` call: the returned value
(`None` on failure, else the `articles` value), whether the network was
contacted, and the console lines printed, in order. -/
structure FetchCall where
  result : Option JValue
  networkCalled : Bool
  printed : List String

/-- `get_headlines_by_category(category, language)`.  `apiKey` is
`os.getenv('NEWS_API_KEY')`; `net` is the HTTP oracle giving the outcome
of `requests.get(BASE_URL, params=params)` for the parameters sent.  The
`except requests.exceptions.RequestException` clause catches the timeout,
connection-error and `raise_for_status` exceptions, so every modelled
path returns normally. -/
def get_headlines_by_category (apiKey : Option String) (net : ReqParams → HttpOutcome)
    (category : String := "general") (language : String := "en") : FetchCall :=
  if !strOptTruthy apiKey then
    { result := none
      networkCalled := false
      printed := ["Error: NEWS_API_KEY not found. Please set it in your .env file."] }
  else
    let params : ReqParams := sentParams apiKey category language
    let fetching := "Fetching '" ++ category ++ "' headlines..."
    match net params with
    | .response status body =>
      if raisesForStatus status then
        { result := none
          networkCalled := true
          printed := [fetching,
            "An error occurred: " ++ causeText (.response status body)] }
      else
        { result := some (dictGetD body "articles" (.arr []))
          networkCalled := true
          printed := [fetching] }
    | .timeout =>
      { result := none
        networkCalled := true
        printed := [fetching, "An error occurred: " ++ causeText .timeout] }
    | .connError =>
      { result := none
        networkCalled := true
        printed := [fetching, "An error occurred: " ++ causeText .connError] }

/-- Length of a JSON array (`len(articles)` in the success message; the
value written is always the `articles` array). -/
def jLen : JValue → Nat
  | .arr xs => xs.length
  | _ => 0

/-- Result of the fetcher's `__main__` block: the collection written to
`data/global_headlines.json` (or `none` when nothing is written) and the
console lines printed. -/
structure FetchMainOut where
  wrote : Option JValue
  printed : List String

/-- The `__main__` block of `fetchNews.py` (lines 36–52): fetch the
`general` headlines, then write and report success only when the result
is truthy — `if articles:` — so both a `None` result and an empty list
take the failure branch. -/
def fetchMainRun (apiKey : Option String) (net : ReqParams → HttpOutcome) : FetchMainOut :=
  let call := get_headlines_by_category apiKey net "general" "en"
  if truthyOpt call.result then
    { wrote := call.result
      printed := call.printed ++
        ["Successfully saved " ++ toString (jLen ((call.result).getD (.arr []))) ++
          " articles to data/global_headlines.json", "Fetching complete!"] }
  else
    { wrote := none
      printed := call.printed ++ ["Could not fetch or save articles.", "Fetching complete!"] }

/-- The `articles` array of a completed response body, when present:
the collection "returned by the API". -/
def articlesOf : HttpOutcome → Option (List JValue)
  | .response _ body =>
    match dictGet body "articles" with
    | some (.arr xs) => some xs
    | _ => none
  | _ => none

/-! ## Dictionary lemmas -/

lemma dictGet_dictSet_self : ∀ (d : List (String × JValue)) (k : String) (v : JValue),
    dictGet (dictSet d k v) k = some v
  | [], k, v => by simp [dictSet, dictGet]
  | (k', v') :: rest, k, v => by
    by_cases h : k' = k
    · simp [dictSet, dictGet, h]
    · simp [dictSet, dictGet, h, dictGet_dictSet_self rest k v]

lemma dictGet_dictSet_ne : ∀ (d : List (String × JValue)) (k k'' : String) (v : JValue),
    k'' ≠ k → dictGet (dictSet d k v) k'' = dictGet d k''
  | [], k, k'', v, hne => by
    simp [dictSet, dictGet, Ne.symm hne]
  | (k', v') :: rest, k, k'', v, hne => by
    by_cases h : k' = k
    · subst h
      simp [dictSet, dictGet, Ne.symm hne]
    · by_cases h2 : k' = k''
      · subst h2
        simp [dictSet, dictGet, h]
      · simp [dictSet, dictGet, h, h2, dictGet_dictSet_ne rest k k'' v hne]

lemma mem_keys_dictSet : ∀ (d : List (String × JValue)) (k k'' : String) (v : JValue),
    (k'' ∈ (dictSet d k v).map Prod.fst) ↔ (k'' ∈ d.map Prod.fst ∨ k'' = k)
  | [], k, k'', v => by simp [dictSet]
  | (k', v') :: rest, k, k'', v => by
    by_cases h : k' = k
    · subst h
      simp only [dictSet, if_pos]
      simp only [List.map_cons, List.mem_cons]
      tauto
    · simp only [dictSet, if_neg h, List.map_cons, List.mem_cons,
        mem_keys_dictSet rest k k'' v]
      tauto

/-- Closed form of the analyzer loop: the kept records are exactly the
titled ones, in order, each augmented. -/
lemma analyzeLoop_eq (classify : JValue → PipeResult) :
    ∀ arts : List Article,
      analyzeLoop classify arts = (arts.filter hasTitle).map (augment classify)
  | [] => rfl
  | a :: rest => by
    have ih := analyzeLoop_eq classify rest
    cases h : dictGet a "title" with
    | none =>
      have ht : hasTitle a = false := by simp [hasTitle, h, truthyOpt]
      simp [analyzeLoop, h, ht, ih]
    | some t =>
      cases hf : t.falsy with
      | true =>
        have ht : hasTitle a = false := by simp [hasTitle, h, truthyOpt, hf]
        simp [analyzeLoop, h, hf, ht, ih]
      | false =>
        have ht : hasTitle a = true := by simp [hasTitle, h, truthyOpt, hf]
        simp [analyzeLoop, h, hf, ht, ih, augment]

/-! ## Claims about the Analyzer -/

/-- C1: every input record without a truthy `title` is excluded from
`analyzeSentiment`'s output; the output is the titled subsequence of the
input, in input order (each record augmented by the loop body), and its
length is the number of input records with a usable title. -/
theorem analyzer_drops_untitled (classify : JValue → PipeResult) (arts : List Article) :
    analyzeLoop classify arts = (arts.filter hasTitle).map (augment classify) ∧
    (analyzeLoop classify arts).length = arts.countP hasTitle := by
  refine ⟨analyzeLoop_eq classify arts, ?_⟩
  rw [analyzeLoop_eq classify arts, List.length_map, List.countP_eq_length_filter]

/-- C2: every record the analyzer outputs comes from an input record with
a truthy title; its key set is the input's keys plus `sentiment` and
`sentiment_score`; every other field is unchanged; `sentiment` holds a
non-empty string label and `sentiment_score` a score in `[0, 1]`,
assuming the external classifier meets its interface (non-empty label,
score in `[0, 1]`). -/
theorem analyzer_frame_effect (classify : JValue → PipeResult)
    (hlab : ∀ t, (classify t).label ≠ "")
    (hsc : ∀ t, 0 ≤ (classify t).score.toRat ∧ (classify t).score.toRat ≤ 1)
    (arts : List Article) (b : Article) (hb : b ∈ analyzeLoop classify arts) :
    ∃ a ∈ arts, hasTitle a = true ∧
      (∀ k, k ∈ b.map Prod.fst ↔ (k ∈ a.map Prod.fst ∨ k = "sentiment" ∨ k = "sentiment_score")) ∧
      (∀ k, k ≠ "sentiment" → k ≠ "sentiment_score" → dictGet b k = dictGet a k) ∧
      (∃ lab, dictGet b "sentiment" = some (.str lab) ∧ lab ≠ "") ∧
      (∃ d, dictGet b "sentiment_score" = some (.num d) ∧ 0 ≤ d.toRat ∧ d.toRat ≤ 1) := by
  rw [analyzeLoop_eq] at hb
  obtain ⟨a, ha, rfl⟩ := List.mem_map.mp hb
  obtain ⟨hmem, htit⟩ := List.mem_filter.mp ha
  refine ⟨a, hmem, htit, ?_⟩
  obtain ⟨t, hget⟩ : ∃ t, dictGet a "title" = some t := by
    cases h : dictGet a "title" with
    | none => simp [hasTitle, h, truthyOpt] at htit
    | some t => exact ⟨t, rfl⟩
  have haug : augment classify a =
      dictSet (dictSet a "sentiment" (.str (classify t).label))
        "sentiment_score" (.num (classify t).score) := by
    simp [augment, hget]
  rw [haug]
  refine ⟨?_, ?_, ?_, ?_⟩
  · intro k
    rw [mem_keys_dictSet, mem_keys_dictSet]
    tauto
  · intro k hk1 hk2
    rw [dictGet_dictSet_ne _ _ _ _ hk2, dictGet_dictSet_ne _ _ _ _ hk1]
  · refine ⟨(classify t).label, ?_, hlab t⟩
    rw [dictGet_dictSet_ne _ _ _ _ (by decide), dictGet_dictSet_self]
  · exact ⟨(classify t).score, dictGet_dictSet_self _ _ _, (hsc t).1, (hsc t).2⟩

/-- Concrete classifier used to witness the analyzer claims: label
`POSITIVE`, score `0.9`. -/
def classifyW : JValue → PipeResult := fun _ => ⟨"POSITIVE", ⟨9, 1⟩⟩

/-- Concrete one-article input used to witness the analyzer claims. -/
def artsW : List Article := [[("title", .str "Markets rally")]]

/-- Concrete augmented output record for the witness input. -/
def outW : Article :=
  [("title", .str "Markets rally"), ("sentiment", .str "POSITIVE"),
   ("sentiment_score", .num ⟨9, 1⟩)]

/-- Witness for C2 at a concrete classifier, input and output record. -/
theorem analyzer_frame_effect_witness :
    ∃ a ∈ artsW, hasTitle a = true ∧
      (∀ k, k ∈ outW.map Prod.fst ↔
        (k ∈ a.map Prod.fst ∨ k = "sentiment" ∨ k = "sentiment_score")) ∧
      (∀ k, k ≠ "sentiment" → k ≠ "sentiment_score" → dictGet outW k = dictGet a k) ∧
      (∃ lab, dictGet outW "sentiment" = some (.str lab) ∧ lab ≠ "") ∧
      (∃ d, dictGet outW "sentiment_score" = some (.num d) ∧ 0 ≤ d.toRat ∧ d.toRat ≤ 1) :=
  analyzer_frame_effect classifyW (by intro t; unfold classifyW; decide)
    (by intro t; constructor <;> norm_num [classifyW, Decimal.toRat])
    artsW outW (by rw [show analyzeLoop classifyW artsW = [outW] from rfl]; simp)

/-- C3: the `__main__` block of `analyzeSentiment.py` calls
`analyze_headlines`, a name the script never binds (the function is
`analyzeSentiment`), so command-line invocation raises `NameError` for
every file system, classifier and input path. -/
theorem analyzer_cli_name_error (classify : JValue → PipeResult)
    (fs : String → Option (List Article)) (input_file : String) :
    analyzerEntryCallee ∉ analyzerScriptDefs ∧
    analyzerCliInvocation classify fs input_file =
      .error "NameError: name 'analyze_headlines' is not defined" := by
  exact ⟨by decide, rfl⟩

/-- C6: on a missing input file, `analyzeSentiment` returns `None`, prints
an error naming the path, and the `__main__` guard `if analyzed_data:`
would not write any output file for that `None` result. -/
theorem analyzer_missing_file (classify : JValue → PipeResult)
    (fs : String → Option (List Article)) (path : String) (h : fs path = none) :
    (analyzeSentiment classify fs path).result = none ∧
    ("Error: The file " ++ path ++ " was not found.")
      ∈ (analyzeSentiment classify fs path).printed ∧
    analyzerSaves (analyzeSentiment classify fs path).result = false := by
  simp [analyzeSentiment, h, analyzerSaves]

/-- Witness for C6 at a concrete empty file system and path. -/
theorem analyzer_missing_file_witness :
    (analyzeSentiment classifyW (fun _ => none) "global_headlines.json").result = none ∧
    ("Error: The file " ++ "global_headlines.json" ++ " was not found.")
      ∈ (analyzeSentiment classifyW (fun _ => none) "global_headlines.json").printed ∧
    analyzerSaves (analyzeSentiment classifyW (fun _ => none) "global_headlines.json").result
      = false :=
  analyzer_missing_file classifyW (fun _ => none) "global_headlines.json" rfl

/-! ## Claims about the Fetcher -/

/-- C4: with an unset or empty `NEWS_API_KEY`, `get_headlines_by_category`
returns `None`, contacts no network oracle, and prints only the
configuration error. -/
theorem fetcher_no_key_no_call (apiKey : Option String) (net : ReqParams → HttpOutcome)
    (category language : String) (h : strOptTruthy apiKey = false) :
    get_headlines_by_category apiKey net category language =
      { result := none, networkCalled := false
        printed := ["Error: NEWS_API_KEY not found. Please set it in your .env file."] } := by
  simp [get_headlines_by_category, h]

/-- Witness for C4 at the unset key and a concrete network oracle. -/
theorem fetcher_no_key_no_call_witness :
    get_headlines_by_category none (fun _ => .timeout) "general" "en" =
      { result := none, networkCalled := false
        printed := ["Error: NEWS_API_KEY not found. Please set it in your .env file."] } :=
  fetcher_no_key_no_call none (fun _ => .timeout) "general" "en" rfl

/-- Concrete oracle answering every request with an HTTP 304 response and
an empty object body. -/
def net304 : ReqParams → HttpOutcome := fun _ => .response 304 [(("articles" : String), .arr [])]

/-- Counterexample to C5 as stated: a 304 Not Modified response is a
non-2xx status, yet `raise_for_status` does not raise for it, so
`get_headlines_by_category` follows the success path — the result is the
`articles` value, not `None`, and no error line is printed. -/
theorem fetcher_non2xx_not_failure :
    (get_headlines_by_category (some "key") net304 "general" "en").result = some (.arr []) ∧
    (get_headlines_by_category (some "key") net304 "general" "en").result ≠ none ∧
    (get_headlines_by_category (some "key") net304 "general" "en").printed =
      ["Fetching 'general' headlines..."] := by
  refine ⟨rfl, ?_, rfl⟩
  rw [show (get_headlines_by_category (some "key") net304 "general" "en").result =
    some (.arr []) from rfl]
  simp

/-- Whether the HTTP outcome raises a `requests.RequestException` in the
`try` block: a 4xx/5xx status (from `raise_for_status`), a timeout, or a
connection error. -/
def failedOutcome : HttpOutcome → Bool
  | .response s _ => raisesForStatus s
  | .timeout => true
  | .connError => true

/-- C5 (amended): for every outcome that raises a `RequestException` — a
4xx/5xx status, a timeout or a connection error — the exception is
caught, reported with its cause, and `None` is returned instead of the
exception propagating. -/
theorem fetcher_failure_policy (apiKey : Option String) (net : ReqParams → HttpOutcome)
    (category language : String) (hk : strOptTruthy apiKey = true)
    (hfail : failedOutcome (net (sentParams apiKey category language)) = true) :
    (get_headlines_by_category apiKey net category language).result = none ∧
    ("An error occurred: " ++ causeText (net (sentParams apiKey category language)))
      ∈ (get_headlines_by_category apiKey net category language).printed := by
  cases h : net (sentParams apiKey category language) with
  | response status body =>
    rw [h] at hfail
    simp only [failedOutcome] at hfail
    simp [get_headlines_by_category, hk, h, hfail, causeText]
  | timeout => simp [get_headlines_by_category, hk, h, causeText]
  | connError => simp [get_headlines_by_category, hk, h, causeText]

/-- Witness for the amended C5 at a concrete key and a timing-out oracle. -/
theorem fetcher_failure_policy_witness :
    (get_headlines_by_category (some "key") (fun _ => .timeout) "general" "en").result = none ∧
    ("An error occurred: " ++
        causeText ((fun _ => HttpOutcome.timeout) (sentParams (some "key") "general" "en")))
      ∈ (get_headlines_by_category (some "key") (fun _ => .timeout) "general" "en").printed :=
  fetcher_failure_policy (some "key") (fun _ => .timeout) "general" "en" rfl rfl

/-- C7: when the request succeeds with a 2xx status and the body carries a
non-empty `articles` array, the returned collection is exactly that
array; under the API's page-size contract for the request the code sends
(`pageSize = 100`), its length is at most 100. -/
theorem fetcher_response_length (apiKey : Option String) (net : ReqParams → HttpOutcome)
    (category language : String) (status : Nat) (body : List (String × JValue))
    (xs : List JValue) (hk : strOptTruthy apiKey = true)
    (hresp : net (sentParams apiKey category language) = .response status body)
    (h2xx : 200 ≤ status ∧ status < 300)
    (harts : dictGet body "articles" = some (.arr xs))
    (_hne : xs ≠ [])
    (hcap : ∀ ys, articlesOf (net (sentParams apiKey category language)) = some ys →
      ys.length ≤ 100) :
    (get_headlines_by_category apiKey net category language).result = some (.arr xs) ∧
    xs.length ≤ 100 := by
  have hnr : raisesForStatus status = false := by
    simp only [raisesForStatus, Bool.and_eq_false_iff]
    left
    simpa using Nat.not_le.mpr (lt_of_lt_of_le h2xx.2 (by norm_num))
  constructor
  · simp [get_headlines_by_category, hk, hresp, hnr, dictGetD, harts]
  · exact hcap xs (by simp [articlesOf, hresp, harts])

/-- Concrete oracle answering every request with a 2xx response holding
one article. -/
def netOne : ReqParams → HttpOutcome :=
  fun _ => .response 200 [(("articles" : String), .arr [.obj [(("title" : String), .str "a")]])]

/-- Witness for C7 at a concrete key and the one-article oracle. -/
theorem fetcher_response_length_witness :
    (get_headlines_by_category (some "key") netOne "general" "en").result =
      some (.arr [.obj [(("title" : String), .str "a")]]) ∧
    [JValue.obj [(("title" : String), .str "a")]].length ≤ 100 :=
  fetcher_response_length (some "key") netOne "general" "en" 200
    [(("articles" : String), .arr [.obj [(("title" : String), .str "a")]])]
    [.obj [(("title" : String), .str "a")]] rfl rfl (by constructor <;> norm_num)
    rfl (by simp)
    (by intro ys h; simp [netOne, articlesOf, dictGet] at h; simp [← h])

/-- C9: when the fetch succeeds but yields an empty `articles` list, the
`__main__` block of `fetchNews.py` writes no file and prints the same
failure line as it does whenever the fetch returns `None`: the truthiness
guard `if articles:` cannot tell the empty list from `None`. -/
theorem fetcher_empty_like_failure (apiKey : Option String) (net : ReqParams → HttpOutcome)
    (hempty : (get_headlines_by_category apiKey net "general" "en").result = some (.arr [])) :
    (fetchMainRun apiKey net).wrote = none ∧
    "Could not fetch or save articles." ∈ (fetchMainRun apiKey net).printed ∧
    ∀ net2, (get_headlines_by_category apiKey net2 "general" "en").result = none →
      (fetchMainRun apiKey net2).wrote = none ∧
      "Could not fetch or save articles." ∈ (fetchMainRun apiKey net2).printed := by
  refine ⟨?_, ?_, ?_⟩
  · simp [fetchMainRun, hempty, truthyOpt, JValue.falsy]
  · simp [fetchMainRun, hempty, truthyOpt, JValue.falsy]
  · intro net2 hnone
    constructor
    · simp [fetchMainRun, hnone, truthyOpt]
    · simp [fetchMainRun, hnone, truthyOpt]

/-- Concrete oracle answering every request with a 2xx response holding an
empty `articles` array. -/
def netEmpty : ReqParams → HttpOutcome :=
  fun _ => .response 200 [(("articles" : String), .arr [])]

/-- Witness for C9 at a concrete key and the empty-success oracle. -/
theorem fetcher_empty_like_failure_witness :
    (fetchMainRun (some "key") netEmpty).wrote = none ∧
    "Could not fetch or save articles." ∈ (fetchMainRun (some "key") netEmpty).printed ∧
    ∀ net2, (get_headlines_by_category (some "key") net2 "general" "en").result = none →
      (fetchMainRun (some "key") net2).wrote = none ∧
      "Could not fetch or save articles." ∈ (fetchMainRun (some "key") net2).printed :=
  fetcher_empty_like_failure (some "key") netEmpty rfl

/-- C10: a successful (2xx) response whose object body has no `articles`
key makes `get_headlines_by_category` return the `dict.get` default — the
empty list — rather than `None` or an error. -/
theorem fetcher_missing_articles_default (apiKey : Option String)
    (net : ReqParams → HttpOutcome) (category language : String)
    (status : Nat) (body : List (String × JValue)) (hk : strOptTruthy apiKey = true)
    (hresp : net (sentParams apiKey category language) = .response status body)
    (h2xx : 200 ≤ status ∧ status < 300)
    (hno : dictGet body "articles" = none) :
    (get_headlines_by_category apiKey net category language).result = some (.arr []) := by
  have hnr : raisesForStatus status = false := by
    simp only [raisesForStatus, Bool.and_eq_false_iff]
    left
    simpa using Nat.not_le.mpr (lt_of_lt_of_le h2xx.2 (by norm_num))
  simp [get_headlines_by_category, hk, hresp, hnr, dictGetD, hno]

/-- Witness for C10 at a concrete key and a keyless-body oracle. -/
theorem fetcher_missing_articles_default_witness :
    (get_headlines_by_category (some "key")
      (fun _ => .response 200 [(("status" : String), .str "ok")]) "general" "en").result =
      some (.arr []) :=
  fetcher_missing_articles_default (some "key")
    (fun _ => .response 200 [(("status" : String), .str "ok")]) "general" "en" 200
    [(("status" : String), .str "ok")] rfl rfl (by constructor <;> norm_num) rfl

/-! ## JSON serialisation (`json.dump(..., indent=4, ensure_ascii=False)`)

Both scripts persist article collections with
`json.dump(data, f, indent=4, ensure_ascii=False)` and read them back
with `json.load(f)`.  The serialiser below reproduces CPython's output
for that call: four-space indentation, `", "`-free separators with a
newline and indent before every element, `": "` after object keys, and
`ensure_ascii=False` string escaping (only the quote, the backslash and
control characters are escaped, the five C escapes by name and the rest
as `\u00XX`).  Numbers print as decimals without exponents, matching
`repr` on ints and on the finite decimals `Decimal` models. -/

/-- The character for a decimal digit value. -/
def digitChar (n : Nat) : Char := Char.ofNat (48 + n)

/-- Digits of `n`, most significant first, prepended to `acc`; `fuel`
bounds the recursion (any `fuel > n` is exact). -/
def natDigitsAux : Nat → Nat → List Char → List Char
  | 0, _, acc => acc
  | fuel+1, n, acc =>
    if n < 10 then digitChar n :: acc
    else natDigitsAux fuel (n / 10) (digitChar (n % 10) :: acc)

/-- Decimal digits of `n`, most significant first (`repr` of a Python int). -/
def natDigits (n : Nat) : List Char := natDigitsAux (n + 1) n []

/-- Digit string of the magnitude `n / 10^e` with `e` fractional digits
(`repr` of the finite decimal), without the sign. -/
def natAbsChars (n e : Nat) : List Char :=
  if e = 0 then natDigits n
  else
    natDigits (n / 10 ^ e) ++
      '.' :: (List.replicate (e - (natDigits (n % 10 ^ e)).length) '0' ++
        natDigits (n % 10 ^ e))

/-- Rendering of a JSON number. -/
def decimalChars (d : Decimal) : List Char :=
  (if d.m < 0 then ['-'] else []) ++ natAbsChars d.m.natAbs d.e

/-- Lower-case hex digit character. -/
def hexDigitChar (n : Nat) : Char :=
  if n < 10 then digitChar n else Char.ofNat (87 + n)

/-- CPython's `py_encode_basestring` (the `ensure_ascii=False` escaper)
for one character: quote and backslash escaped, the five named control
escapes, `\u00XX` for the remaining control characters, everything else
(including non-ASCII) written raw. -/
def escChar (c : Char) : List Char :=
  if c = '"' then ['\\', '"']
  else if c = '\\' then ['\\', '\\']
  else if c = '\x08' then ['\\', 'b']
  else if c = '\x0c' then ['\\', 'f']
  else if c = '\n' then ['\\', 'n']
  else if c = '\r' then ['\\', 'r']
  else if c = '\t' then ['\\', 't']
  else if c.toNat < 32 then
    ['\\', 'u', '0', '0', hexDigitChar (c.toNat / 16), hexDigitChar (c.toNat % 16)]
  else [c]

/-- Escaped body of a JSON string. -/
def escString : List Char → List Char
  | [] => []
  | c :: rest => escChar c ++ escString rest

/-- A quoted JSON string literal. -/
def strChars (s : String) : List Char := '"' :: (escString s.data ++ ['"'])

/-- The newline-plus-indent separator `json.dump` emits before each
element at nesting level `lvl` with `indent=4`. -/
def nlIndent (lvl : Nat) : List Char := '\n' :: List.replicate (4 * lvl) ' '

/-- Serialisation of a JSON value at nesting level `lvl`; `fuel` bounds
the recursion depth (any `fuel ≥ sizeOf v` is exact). -/
def dumpV : Nat → Nat → JValue → List Char
  | 0, _, _ => []
  | fuel+1, lvl, v =>
    match v with
    | .null => "null".data
    | .bool true => "true".data
    | .bool false => "false".data
    | .num d => decimalChars d
    | .str s => strChars s
    | .arr [] => ['[', ']']
    | .arr (e :: es) =>
      '[' :: (nlIndent (lvl + 1) ++ dumpV fuel (lvl + 1) e ++
        es.foldr (fun e2 acc => ',' :: (nlIndent (lvl + 1) ++ dumpV fuel (lvl + 1) e2 ++ acc)) [] ++
        nlIndent lvl ++ [']'])
    | .obj [] => ['\x7b', '\x7d']
    | .obj (kv :: fs) =>
      '\x7b' :: (nlIndent (lvl + 1) ++ strChars kv.1 ++ ':' :: ' ' :: dumpV fuel (lvl + 1) kv.2 ++
        fs.foldr (fun kv2 acc =>
          ',' :: (nlIndent (lvl + 1) ++ strChars kv2.1 ++ ':' :: ' ' :: dumpV fuel (lvl + 1) kv2.2 ++ acc)) [] ++
        nlIndent lvl ++ ['\x7d'])

/-- The serialised tail of an array: separator then element, repeated. -/
def dumpTail (fuel lvl : Nat) (es : List JValue) : List Char :=
  es.foldr (fun e2 acc => ',' :: (nlIndent lvl ++ dumpV fuel lvl e2 ++ acc)) []

/-- The serialised tail of an object: separator then key, colon, value. -/
def dumpFieldsTail (fuel lvl : Nat) (fs : List (String × JValue)) : List Char :=
  fs.foldr (fun kv2 acc =>
    ',' :: (nlIndent lvl ++ strChars kv2.1 ++ ':' :: ' ' :: dumpV fuel lvl kv2.2 ++ acc)) []

/-- Character form of the `null` rendering. -/
lemma dumpV_null (df lvl : Nat) : dumpV (df + 1) lvl JValue.null = ['n', 'u', 'l', 'l'] := by
  simp [dumpV]

/-- Character form of the `true` rendering. -/
lemma dumpV_true (df lvl : Nat) :
    dumpV (df + 1) lvl (JValue.bool true) = ['t', 'r', 'u', 'e'] := by
  simp [dumpV]

/-- Character form of the `false` rendering. -/
lemma dumpV_false (df lvl : Nat) :
    dumpV (df + 1) lvl (JValue.bool false) = ['f', 'a', 'l', 's', 'e'] := by
  simp [dumpV]

/-- `json.dump(v, f, indent=4, ensure_ascii=False)`: the file contents.
`fuel` bounds the recursion depth; any `fuel ≥ sizeOf v` is exact. -/
def dumps (fuel : Nat) (v : JValue) : String := String.mk (dumpV fuel 0 v)

/-- Key lists without duplicates, checked recursively — the well-formedness
every value deserialised from (or serialised as) a Python dict has, since
dict keys are unique.  `fuel` bounds the recursion depth (any
`fuel ≥ sizeOf v` is exact). -/
def allKeysNodup : List String → Bool
  | [] => true
  | k :: ks => !(ks.contains k) && allKeysNodup ks

/-- Recursive well-formedness: every object's keys are duplicate-free. -/
def wfV : Nat → JValue → Bool
  | 0, _ => false
  | fuel+1, v =>
    match v with
    | .arr es => es.all (fun e => wfV fuel e)
    | .obj fs => allKeysNodup (fs.map Prod.fst) && fs.all (fun kv => wfV fuel kv.2)
    | _ => true

/-! ## JSON parsing (`json.load`) -/

/-- JSON whitespace. -/
def isWsChar (c : Char) : Bool := c = ' ' || c = '\t' || c = '\n' || c = '\r'

/-- Drop leading JSON whitespace. -/
def skipWs : List Char → List Char
  | [] => []
  | c :: rest => if isWsChar c then skipWs rest else c :: rest

/-- Value of a decimal digit character, if it is one. -/
def digitVal (c : Char) : Option Nat :=
  if 48 ≤ c.toNat && c.toNat ≤ 57 then some (c.toNat - 48) else none

/-- Value of a hex digit character, if it is one. -/
def hexVal (c : Char) : Option Nat :=
  if 48 ≤ c.toNat && c.toNat ≤ 57 then some (c.toNat - 48)
  else if 97 ≤ c.toNat && c.toNat ≤ 102 then some (c.toNat - 87)
  else if 65 ≤ c.toNat && c.toNat ≤ 70 then some (c.toNat - 55)
  else none

/-- Longest digit prefix: accumulated value (onto `acc`), digit count,
and the rest. -/
def parseDigits : List Char → Nat → Nat × Nat × List Char
  | [], acc => (acc, 0, [])
  | c :: rest, acc =>
    match digitVal c with
    | some d =>
      let r := parseDigits rest (acc * 10 + d)
      (r.1, r.2.1 + 1, r.2.2)
    | none => (acc, 0, c :: rest)

/-- The character for a two-character string escape. -/
def unescape (e : Char) : Option Char :=
  if e = '"' then some '"'
  else if e = '\\' then some '\\'
  else if e = '/' then some '/'
  else if e = 'b' then some '\x08'
  else if e = 'f' then some '\x0c'
  else if e = 'n' then some '\n'
  else if e = 'r' then some '\r'
  else if e = 't' then some '\t'
  else none

/-- Body of a JSON string after the opening quote: the decoded characters
and the rest after the closing quote.  Unescaped control characters are
rejected, as by `json.load`'s default strict mode. -/
def parseStrBody : List Char → Option (List Char × List Char)
  | [] => none
  | c :: rest =>
    if c = '"' then some ([], rest)
    else if c = '\\' then
      match rest with
      | [] => none
      | e :: rest2 =>
        if e = 'u' then
          match rest2 with
          | a :: b :: c3 :: d :: rest3 =>
            match hexVal a, hexVal b, hexVal c3, hexVal d with
            | some x, some y, some z, some w =>
              (parseStrBody rest3).map
                (fun p => (Char.ofNat (((x * 16 + y) * 16 + z) * 16 + w) :: p.1, p.2))
            | _, _, _, _ => none
          | _ => none
        else
          match unescape e with
          | some uc => (parseStrBody rest2).map (fun p => (uc :: p.1, p.2))
          | none => none
    else if c.toNat < 32 then none
    else (parseStrBody rest).map (fun p => (c :: p.1, p.2))

/-- A number after an optional leading minus: integer digits, then an
optional fractional part introduced by a dot. -/
def parseNumAfterSign (neg : Bool) (l : List Char) : Option (JValue × List Char) :=
  match l with
  | [] => none
  | c :: _ =>
    match digitVal c with
    | none => none
    | some _ =>
      let r := parseDigits l 0
      match r.2.2 with
      | [] => some (.num ⟨if neg then -(r.1 : Int) else (r.1 : Int), 0⟩, [])
      | c2 :: rest2 =>
        if c2 = '.' then
          match rest2 with
          | [] => none
          | c3 :: _ =>
            match digitVal c3 with
            | none => none
            | some _ =>
              let rf := parseDigits rest2 0
              let mag : Nat := r.1 * 10 ^ rf.2.1 + rf.1
              some (.num ⟨if neg then -(mag : Int) else (mag : Int), rf.2.1⟩, rf.2.2)
        else some (.num ⟨if neg then -(r.1 : Int) else (r.1 : Int), 0⟩, c2 :: rest2)

mutual

/-- Recursive-descent JSON value parser (the grammar `json.load` accepts,
without exponent notation, which the pipeline's serialiser never emits);
`fuel` bounds the descent and any `fuel` exceeding the serialised length
is enough. -/
def parseVal : Nat → List Char → Option (JValue × List Char)
  | 0, _ => none
  | fuel+1, input =>
    match skipWs input with
    | [] => none
    | c :: rest =>
      if c = 'n' then
        match rest with
        | 'u' :: 'l' :: 'l' :: r => some (.null, r)
        | _ => none
      else if c = 't' then
        match rest with
        | 'r' :: 'u' :: 'e' :: r => some (.bool true, r)
        | _ => none
      else if c = 'f' then
        match rest with
        | 'a' :: 'l' :: 's' :: 'e' :: r => some (.bool false, r)
        | _ => none
      else if c = '"' then
        (parseStrBody rest).map (fun p => (.str (String.mk p.1), p.2))
      else if c = '[' then
        match skipWs rest with
        | [] => none
        | c2 :: r2 => if c2 = ']' then some (.arr [], r2) else parseElems fuel (c2 :: r2) []
      else if c = '\x7b' then
        match skipWs rest with
        | [] => none
        | c2 :: r2 => if c2 = '\x7d' then some (.obj [], r2) else parseFields fuel (c2 :: r2) []
      else if c = '-' then parseNumAfterSign true rest
      else
        match digitVal c with
        | some _ => parseNumAfterSign false (c :: rest)
        | none => none

/-- Array elements: value, then a comma and more elements or the closing
bracket. -/
def parseElems : Nat → List Char → List JValue → Option (JValue × List Char)
  | 0, _, _ => none
  | fuel+1, input, acc =>
    match parseVal fuel input with
    | none => none
    | some (v, rest) =>
      match skipWs rest with
      | [] => none
      | c :: r =>
        if c = ',' then parseElems fuel r (acc ++ [v])
        else if c = ']' then some (.arr (acc ++ [v]), r)
        else none

/-- Object members: quoted key, colon, value, then a comma and more
members or the closing brace.  Members accumulate with `dictSet`, as
CPython's dict building does (a repeated key keeps its first position
and the last value). -/
def parseFields : Nat → List Char → List (String × JValue) → Option (JValue × List Char)
  | 0, _, _ => none
  | fuel+1, input, acc =>
    match skipWs input with
    | [] => none
    | c :: rest =>
      if c = '"' then
        match parseStrBody rest with
        | none => none
        | some (kcs, rest2) =>
          match skipWs rest2 with
          | [] => none
          | c2 :: rest3 =>
            if c2 = ':' then
              match parseVal fuel rest3 with
              | none => none
              | some (v, rest4) =>
                match skipWs rest4 with
                | [] => none
                | c3 :: r =>
                  if c3 = ',' then parseFields fuel r (dictSet acc (String.mk kcs) v)
                  else if c3 = '\x7d' then some (.obj (dictSet acc (String.mk kcs) v), r)
                  else none
            else none
      else none

end

/-- `json.load(f)`: parse the whole document; trailing content other than
whitespace is an error ("Extra data"). -/
def loads (s : String) : Option JValue :=
  match parseVal (s.data.length + 1) s.data with
  | some (v, rest) => if (skipWs rest).isEmpty then some v else none
  | none => none

/-! ## Whitespace lemmas -/

/-- A run of JSON whitespace. -/
def isWsOnly (l : List Char) : Bool := l.all isWsChar

lemma skipWs_cons_not_ws (c : Char) (l : List Char) (h : isWsChar c = false) :
    skipWs (c :: l) = c :: l := by
  simp [skipWs, h]

lemma skipWs_append (pre : List Char) (l : List Char) (h : isWsOnly pre = true) :
    skipWs (pre ++ l) = skipWs l := by
  induction pre with
  | nil => rfl
  | cons c rest ih =>
    simp only [isWsOnly, List.all_cons, Bool.and_eq_true] at h
    simp only [List.cons_append, skipWs, h.1, if_true]
    exact ih (by simp [isWsOnly, h.2])

lemma isWsOnly_nlIndent (lvl : Nat) : isWsOnly (nlIndent lvl) = true := by
  simp only [nlIndent, isWsOnly, List.all_cons, Bool.and_eq_true]
  refine ⟨by decide, ?_⟩
  rw [List.all_eq_true]
  intro c hc
  rw [List.eq_of_mem_replicate hc]
  decide

/-- Whether a number literal may stop here: end of input, or a character
that is neither a digit nor a decimal point. -/
def numBreak : List Char → Bool
  | [] => true
  | c :: _ => (digitVal c).isNone && c != '.'

/-- Whether a digit run may stop here. -/
def headNotDigit : List Char → Bool
  | [] => true
  | c :: _ => (digitVal c).isNone

lemma headNotDigit_of_numBreak (l : List Char) (h : numBreak l = true) :
    headNotDigit l = true := by
  cases l with
  | nil => rfl
  | cons c r =>
    simp only [numBreak, Bool.and_eq_true] at h
    simp [headNotDigit, h.1]

lemma numBreak_nlIndent (lvl : Nat) (l : List Char) :
    numBreak (nlIndent lvl ++ l) = true := by
  simp only [nlIndent, List.cons_append, numBreak]
  decide

/-! ## Digit-rendering lemmas -/

/-- The value accumulated by `parseDigits` over a digit run. -/
def valFrom (a : Nat) (ds : List Char) : Nat :=
  ds.foldl (fun x c => x * 10 + ((digitVal c).getD 0)) a

lemma valFrom_nil (a : Nat) : valFrom a [] = a := rfl

lemma valFrom_append (a : Nat) (ds es : List Char) :
    valFrom a (ds ++ es) = valFrom (valFrom a ds) es := by
  simp [valFrom, List.foldl_append]

lemma digitVal_digitChar (d : Nat) (h : d < 10) : digitVal (digitChar d) = some d := by
  interval_cases d <;> decide

lemma natDigitsAux_eq (n : Nat) : ∀ fuel acc, n < fuel →
    natDigitsAux fuel n acc = natDigits n ++ acc := by
  induction n using Nat.strong_induction_on with
  | _ n ih =>
    intro fuel acc hfuel
    match fuel with
    | 0 => omega
    | f + 1 =>
      by_cases h10 : n < 10
      · simp [natDigitsAux, natDigits, h10]
      · have hd : n / 10 < n := Nat.div_lt_self (by omega) (by omega)
        have hdf : n / 10 < f := by
          have := Nat.div_le_self n 10
          omega
        have step : natDigitsAux (f + 1) n acc =
            natDigitsAux f (n / 10) (digitChar (n % 10) :: acc) := by
          simp [natDigitsAux, h10]
        have expand : natDigits n = natDigits (n / 10) ++ [digitChar (n % 10)] := by
          have step2 : natDigitsAux (n + 1) n [] =
              natDigitsAux n (n / 10) [digitChar (n % 10)] := by
            simp [natDigitsAux, h10]
          rw [natDigits, step2, ih (n / 10) hd n [digitChar (n % 10)] hd]
        rw [step, ih (n / 10) hd f (digitChar (n % 10) :: acc) hdf, expand]
        simp [List.append_assoc]

lemma natDigits_eq (n : Nat) :
    natDigits n = if n < 10 then [digitChar n] else natDigits (n / 10) ++ [digitChar (n % 10)] := by
  by_cases h10 : n < 10
  · simp [natDigits, natDigitsAux, h10]
  · have hd : n / 10 < n := Nat.div_lt_self (by omega) (by omega)
    simp only [natDigits, natDigitsAux, h10, if_false]
    exact natDigitsAux_eq (n / 10) n [digitChar (n % 10)] hd

lemma natDigits_head (n : Nat) : ∃ d t, natDigits n = digitChar d :: t ∧ d < 10 := by
  induction n using Nat.strong_induction_on with
  | _ n ih =>
    rw [natDigits_eq]
    by_cases h10 : n < 10
    · exact ⟨n, [], by simp [h10], h10⟩
    · have hd : n / 10 < n := Nat.div_lt_self (by omega) (by omega)
      obtain ⟨d, t, heq, hlt⟩ := ih (n / 10) hd
      exact ⟨d, t ++ [digitChar (n % 10)], by simp [h10, heq], hlt⟩

lemma natDigits_all_digits (n : Nat) :
    ∀ c ∈ natDigits n, ∃ d, d < 10 ∧ c = digitChar d := by
  induction n using Nat.strong_induction_on with
  | _ n ih =>
    intro c hc
    rw [natDigits_eq] at hc
    by_cases h10 : n < 10
    · simp [h10] at hc
      exact ⟨n, h10, hc⟩
    · have hd : n / 10 < n := Nat.div_lt_self (by omega) (by omega)
      simp only [h10, if_false, List.mem_append, List.mem_singleton] at hc
      rcases hc with hc | hc
      · exact ih (n / 10) hd c hc
      · exact ⟨n % 10, Nat.mod_lt n (by omega), hc⟩

lemma natDigits_val (n : Nat) : ∀ a, valFrom a (natDigits n) =
    a * 10 ^ (natDigits n).length + n := by
  induction n using Nat.strong_induction_on with
  | _ n ih =>
    intro a
    rw [natDigits_eq]
    by_cases h10 : n < 10
    · simp [h10, valFrom, digitVal_digitChar n h10]
    · have hd : n / 10 < n := Nat.div_lt_self (by omega) (by omega)
      simp only [h10, if_false]
      rw [valFrom_append, ih (n / 10) hd a]
      have hm : n % 10 < 10 := Nat.mod_lt n (by omega)
      simp only [valFrom, List.foldl_cons, List.foldl_nil, digitVal_digitChar (n % 10) hm,
        Option.getD_some, List.length_append, List.length_singleton]
      rw [pow_succ]
      have := Nat.div_add_mod n 10
      ring_nf
      omega

lemma natDigits_length_le (e : Nat) : ∀ n, n < 10 ^ e → 1 ≤ e → (natDigits n).length ≤ e := by
  intro n
  induction n using Nat.strong_induction_on generalizing e with
  | _ n ih =>
    intro hn he
    rw [natDigits_eq]
    by_cases h10 : n < 10
    · simpa [h10] using he
    · have hd : n / 10 < n := Nat.div_lt_self (by omega) (by omega)
      have he2 : 2 ≤ e := by
        by_contra hcon
        interval_cases e <;> omega
      have hdiv : n / 10 < 10 ^ (e - 1) := by
        rw [Nat.div_lt_iff_lt_mul (by omega)]
        calc n < 10 ^ e := hn
        _ = 10 ^ (e - 1) * 10 := by
            rw [← pow_succ]
            congr 1
            omega
      have := ih (n / 10) hd (e := e - 1) hdiv (by omega)
      simp only [h10, if_false, List.length_append, List.length_singleton]
      omega

lemma parseDigits_spec : ∀ (ds : List Char), (∀ c ∈ ds, (digitVal c).isSome = true) →
    ∀ (rest : List Char), headNotDigit rest = true → ∀ acc,
    parseDigits (ds ++ rest) acc = (valFrom acc ds, ds.length, rest)
  | [], _, rest, hrest, acc => by
    cases rest with
    | nil => simp [parseDigits, valFrom]
    | cons c r =>
      simp only [headNotDigit, Option.isNone_iff_eq_none] at hrest
      simp [parseDigits, hrest, valFrom]
  | d :: ds, hds, rest, hrest, acc => by
    obtain ⟨dd, hdd⟩ := Option.isSome_iff_exists.mp (hds d (by simp))
    have ih := parseDigits_spec ds (fun c hc => hds c (by simp [hc])) rest hrest
      (acc * 10 + dd)
    simp only [List.cons_append, parseDigits, hdd, List.append_eq]
    rw [ih]
    simp [valFrom, hdd]

lemma replicate_zero_digits (k : Nat) : ∀ c ∈ List.replicate k '0', (digitVal c).isSome = true := by
  intro c hc
  rw [List.eq_of_mem_replicate hc]
  decide

lemma valFrom_replicate_zero (k : Nat) : ∀ a, valFrom a (List.replicate k '0') = a * 10 ^ k := by
  induction k with
  | zero => simp [valFrom]
  | succ k ih =>
    intro a
    rw [List.replicate_succ]
    have h0 : digitVal '0' = some 0 := by decide
    have step : valFrom a ('0' :: List.replicate k '0') =
        valFrom (a * 10) (List.replicate k '0') := by
      simp only [valFrom, List.foldl_cons, h0, Option.getD_some, Nat.add_zero]
    rw [step, ih]
    ring

/-! ## Number round-trip -/

lemma parseNumAfterSign_natAbs (neg : Bool) (n e : Nat) (rest : List Char)
    (hbr : numBreak rest = true) :
    parseNumAfterSign neg (natAbsChars n e ++ rest) =
      some (.num ⟨if neg then -(n : Int) else (n : Int), e⟩, rest) := by
  have hnd := headNotDigit_of_numBreak rest hbr
  by_cases he : e = 0
  · subst he
    obtain ⟨d0, t0, heq, hd0⟩ := natDigits_head n
    have hdig : ∀ c ∈ natDigits n, (digitVal c).isSome = true := by
      intro c hc
      obtain ⟨d, hd, rfl⟩ := natDigits_all_digits n c hc
      simp [digitVal_digitChar d hd]
    have hpd := parseDigits_spec (natDigits n) hdig rest hnd 0
    have hval : valFrom 0 (natDigits n) = n := by
      rw [natDigits_val n 0]
      simp
    have hnat : natAbsChars n 0 = natDigits n := by simp [natAbsChars]
    rw [hnat, heq]
    simp only [List.cons_append, parseNumAfterSign, digitVal_digitChar d0 hd0]
    rw [show (digitChar d0 :: (t0 ++ rest)) = ((digitChar d0 :: t0) ++ rest) from rfl, ← heq,
      hpd, hval]
    cases rest with
    | nil => simp
    | cons c2 r2 =>
      simp only [numBreak, Bool.and_eq_true, bne_iff_ne, ne_eq] at hbr
      simp [hbr.2]
  · have he1 : 1 ≤ e := by omega
    set A := natDigits (n / 10 ^ e) with hA
    set ND := natDigits (n % 10 ^ e) with hND
    set PAD := List.replicate (e - ND.length) '0' ++ ND with hPAD
    have hmod : n % 10 ^ e < 10 ^ e := Nat.mod_lt n (by positivity)
    have hlen2 : ND.length ≤ e := natDigits_length_le e (n % 10 ^ e) hmod he1
    have hAdig : ∀ c ∈ A, (digitVal c).isSome = true := by
      intro c hc
      obtain ⟨d, hd, rfl⟩ := natDigits_all_digits _ c hc
      simp [digitVal_digitChar d hd]
    have hPdig : ∀ c ∈ PAD, (digitVal c).isSome = true := by
      intro c hc
      rw [hPAD] at hc
      rcases List.mem_append.mp hc with hc | hc
      · exact replicate_zero_digits _ c hc
      · obtain ⟨d, hd, rfl⟩ := natDigits_all_digits _ c hc
        simp [digitVal_digitChar d hd]
    have hPlen : PAD.length = e := by
      rw [hPAD]
      simp only [List.length_append, List.length_replicate]
      omega
    have hPval : valFrom 0 PAD = n % 10 ^ e := by
      rw [hPAD, valFrom_append, valFrom_replicate_zero, natDigits_val]
      simp
    have hPne : PAD ≠ [] := by
      intro hcon
      rw [hcon] at hPlen
      simp at hPlen
      omega
    obtain ⟨b0, bt, hB⟩ := List.exists_cons_of_ne_nil hPne
    have hb0 : (digitVal b0).isSome = true := hPdig b0 (by rw [hB]; simp)
    obtain ⟨db, hdb⟩ := Option.isSome_iff_exists.mp hb0
    obtain ⟨d0, t0, heq, hd0⟩ := natDigits_head (n / 10 ^ e)
    have hpdA := parseDigits_spec A hAdig ('.' :: (PAD ++ rest)) (by
      simp only [headNotDigit]
      decide) 0
    have hpdP := parseDigits_spec PAD hPdig rest hnd 0
    have hvalA : valFrom 0 A = n / 10 ^ e := by
      rw [hA, natDigits_val]
      simp
    have harrange : natAbsChars n e ++ rest = A ++ ('.' :: (PAD ++ rest)) := by
      simp [natAbsChars, he, hA, hPAD, hND, List.append_assoc]
    rw [harrange]
    have hAexp : A = digitChar d0 :: t0 := by rw [hA, heq]
    rw [hAexp]
    simp only [List.cons_append, parseNumAfterSign, digitVal_digitChar d0 hd0]
    rw [show digitChar d0 :: (t0 ++ ('.' :: (PAD ++ rest))) =
      ((digitChar d0 :: t0) ++ ('.' :: (PAD ++ rest))) from rfl, ← hAexp, hpdA, hvalA]
    simp only [if_pos rfl]
    rw [hB]
    simp only [List.cons_append, hdb]
    rw [show b0 :: (bt ++ rest) = ((b0 :: bt) ++ rest) from rfl, ← hB, hpdP, hPval, hPlen]
    have hmag : n / 10 ^ e * 10 ^ e + n % 10 ^ e = n := by
      rw [Nat.mul_comm]
      exact Nat.div_add_mod n (10 ^ e)
    rw [hmag]
    simp

/-! ## String round-trip -/

lemma hexVal_hexDigitChar (d : Nat) (h : d < 16) : hexVal (hexDigitChar d) = some d := by
  interval_cases d <;> decide

lemma parseStrBody_esc : ∀ (cs : List Char) (rest : List Char),
    parseStrBody (escString cs ++ ('"' :: rest)) = some (cs, rest)
  | [], rest => by
    rw [show escString [] ++ ('"' :: rest) = '"' :: rest by simp [escString]]
    rw [parseStrBody.eq_def]
    simp
  | c :: cs, rest => by
    have ih := parseStrBody_esc cs rest
    by_cases hq : c = '"'
    · subst hq
      rw [show escString ('"' :: cs) = escChar '"' ++ escString cs from rfl,
        show escChar '"' = ['\\', '"'] from by decide]
      simp only [List.cons_append, List.nil_append, List.append_assoc]
      rw [parseStrBody.eq_def]
      simp [unescape, ih]
    · by_cases hb : c = '\\'
      · subst hb
        rw [show escString ('\\' :: cs) = escChar '\\' ++ escString cs from rfl,
          show escChar '\\' = ['\\', '\\'] from by decide]
        simp only [List.cons_append, List.nil_append, List.append_assoc]
        rw [parseStrBody.eq_def]
        simp [unescape, ih]
      · by_cases h08 : c = '\x08'
        · subst h08
          rw [show escString ('\x08' :: cs) = escChar '\x08' ++ escString cs from rfl,
          show escChar '\x08' = ['\\', 'b'] from by decide]
          simp only [List.cons_append, List.nil_append, List.append_assoc]
          rw [parseStrBody.eq_def]
          simp [unescape, ih]
        · by_cases h0c : c = '\x0c'
          · subst h0c
            rw [show escString ('\x0c' :: cs) = escChar '\x0c' ++ escString cs from rfl,
          show escChar '\x0c' = ['\\', 'f'] from by decide]
            simp only [List.cons_append, List.nil_append, List.append_assoc]
            rw [parseStrBody.eq_def]
            simp [unescape, ih]
          · by_cases hn : c = '\n'
            · subst hn
              rw [show escString ('\n' :: cs) = escChar '\n' ++ escString cs from rfl,
          show escChar '\n' = ['\\', 'n'] from by decide]
              simp only [List.cons_append, List.nil_append, List.append_assoc]
              rw [parseStrBody.eq_def]
              simp [unescape, ih]
            · by_cases hr : c = '\r'
              · subst hr
                rw [show escString ('\r' :: cs) = escChar '\r' ++ escString cs from rfl,
          show escChar '\r' = ['\\', 'r'] from by decide]
                simp only [List.cons_append, List.nil_append, List.append_assoc]
                rw [parseStrBody.eq_def]
                simp [unescape, ih]
              · by_cases ht : c = '\t'
                · subst ht
                  rw [show escString ('\t' :: cs) = escChar '\t' ++ escString cs from rfl,
          show escChar '\t' = ['\\', 't'] from by decide]
                  simp only [List.cons_append, List.nil_append, List.append_assoc]
                  rw [parseStrBody.eq_def]
                  simp [unescape, ih]
                · by_cases hctl : c.toNat < 32
                  · have hdiv : c.toNat / 16 < 16 := by omega
                    have hmod : c.toNat % 16 < 16 := by omega
                    have hesc : escChar c =
                        ['\\', 'u', '0', '0', hexDigitChar (c.toNat / 16),
                          hexDigitChar (c.toNat % 16)] := by
                      simp [escChar, hq, hb, h08, h0c, hn, hr, ht, hctl]
                    rw [show escString (c :: cs) = escChar c ++ escString cs from rfl, hesc]
                    simp only [List.cons_append, List.nil_append, List.append_assoc]
                    rw [parseStrBody.eq_def]
                    have h0 : hexVal '0' = some 0 := by decide
                    simp [h0, hexVal_hexDigitChar _ hdiv, hexVal_hexDigitChar _ hmod, ih,
                      show ((0 * 16 + 0) * 16 + c.toNat / 16) * 16 + c.toNat % 16 = c.toNat
                        from by omega,
                      show c.toNat / 16 * 16 + c.toNat % 16 = c.toNat from by omega,
                      Char.ofNat_toNat]
                  · have hesc : escChar c = [c] := by
                      simp [escChar, hq, hb, h08, h0c, hn, hr, ht, hctl]
                    rw [show escString (c :: cs) = escChar c ++ escString cs from rfl, hesc]
                    simp only [List.cons_append, List.nil_append, List.append_assoc]
                    rw [parseStrBody.eq_def]
                    simp [hq, hb, hctl, ih]

/-! ## Shape lemmas about the serialiser -/

lemma jval_sizeOf_pos (v : JValue) : 1 ≤ sizeOf v := by
  cases v <;> simp <;> omega

lemma natAbsChars_head (n e : Nat) : ∃ d t, natAbsChars n e = digitChar d :: t ∧ d < 10 := by
  by_cases he : e = 0
  · subst he
    simp only [natAbsChars, if_pos rfl]
    exact natDigits_head n
  · obtain ⟨d, t, heq, hd⟩ := natDigits_head (n / 10 ^ e)
    refine ⟨d, t ++ '.' :: (List.replicate (e - (natDigits (n % 10 ^ e)).length) '0' ++
      natDigits (n % 10 ^ e)), ?_, hd⟩
    simp [natAbsChars, he, heq]

lemma digitChar_not_special (d : Nat) (h : d < 10) :
    isWsChar (digitChar d) = false ∧ digitChar d ≠ 'n' ∧ digitChar d ≠ 't' ∧
    digitChar d ≠ 'f' ∧ digitChar d ≠ '"' ∧ digitChar d ≠ '[' ∧ digitChar d ≠ '\x7b' ∧
    digitChar d ≠ '-' ∧ digitChar d ≠ ']' ∧ digitChar d ≠ '\x7d' := by
  interval_cases d <;> decide

lemma dumpTail_nil (df lvl : Nat) : dumpTail df lvl [] = [] := rfl

lemma dumpTail_cons (df lvl : Nat) (e : JValue) (es : List JValue) :
    dumpTail df lvl (e :: es) =
      ',' :: (nlIndent lvl ++ (dumpV df lvl e ++ dumpTail df lvl es)) := by
  simp [dumpTail, List.append_assoc]

lemma dumpFieldsTail_nil (df lvl : Nat) : dumpFieldsTail df lvl [] = [] := rfl

lemma dumpFieldsTail_cons (df lvl : Nat) (kv : String × JValue)
    (fs : List (String × JValue)) :
    dumpFieldsTail df lvl (kv :: fs) =
      ',' :: (nlIndent lvl ++ (strChars kv.1 ++ (':' :: ' ' ::
        (dumpV df lvl kv.2 ++ dumpFieldsTail df lvl fs)))) := by
  simp [dumpFieldsTail, List.append_assoc]

lemma dumpV_arr_cons (df lvl : Nat) (e : JValue) (es : List JValue) :
    dumpV (df + 1) lvl (.arr (e :: es)) =
      '[' :: (nlIndent (lvl + 1) ++ (dumpV df (lvl + 1) e ++
        (dumpTail df (lvl + 1) es ++ (nlIndent lvl ++ [']'])))) := by
  simp [dumpV, dumpTail, List.append_assoc]

lemma dumpV_obj_cons (df lvl : Nat) (kv : String × JValue) (fs : List (String × JValue)) :
    dumpV (df + 1) lvl (.obj (kv :: fs)) =
      '\x7b' :: (nlIndent (lvl + 1) ++ (strChars kv.1 ++ (':' :: ' ' ::
        (dumpV df (lvl + 1) kv.2 ++ (dumpFieldsTail df (lvl + 1) fs ++
          (nlIndent lvl ++ ['\x7d'])))))) := by
  simp [dumpV, dumpFieldsTail, List.append_assoc]

lemma dumpV_head (df lvl : Nat) (v : JValue) :
    ∃ c t, dumpV (df + 1) lvl v = c :: t ∧ isWsChar c = false ∧ c ≠ ']' ∧ c ≠ '\x7d' := by
  cases v with
  | null => exact ⟨'n', ['u', 'l', 'l'], dumpV_null df lvl, by decide, by decide, by decide⟩
  | bool b =>
    cases b with
    | true => exact ⟨'t', ['r', 'u', 'e'], dumpV_true df lvl, by decide, by decide, by decide⟩
    | false =>
      exact ⟨'f', ['a', 'l', 's', 'e'], dumpV_false df lvl, by decide, by decide, by decide⟩
  | num dd =>
    by_cases hm : dd.m < 0
    · exact ⟨'-', natAbsChars dd.m.natAbs dd.e,
        by simp [dumpV, decimalChars, hm], by decide, by decide, by decide⟩
    · obtain ⟨d, t, heq, hd⟩ := natAbsChars_head dd.m.natAbs dd.e
      obtain ⟨f1, _, _, _, _, _, _, _, f9, f10⟩ := digitChar_not_special d hd
      exact ⟨digitChar d, t, by simp [dumpV, decimalChars, hm, heq], f1, f9, f10⟩
  | str s =>
    exact ⟨'"', escString s.data ++ ['"'], by simp [dumpV, strChars],
      by decide, by decide, by decide⟩
  | arr es =>
    cases es with
    | nil => exact ⟨'[', [']'], by simp [dumpV], by decide, by decide, by decide⟩
    | cons e es' =>
      exact ⟨'[', nlIndent (lvl + 1) ++ (dumpV df (lvl + 1) e ++
        (dumpTail df (lvl + 1) es' ++ (nlIndent lvl ++ [']']))),
        by rw [dumpV_arr_cons], by decide, by decide, by decide⟩
  | obj fs =>
    cases fs with
    | nil => exact ⟨'\x7b', ['\x7d'], by simp [dumpV], by decide, by decide, by decide⟩
    | cons kv fs' =>
      exact ⟨'\x7b', nlIndent (lvl + 1) ++ (strChars kv.1 ++ (':' :: ' ' ::
        (dumpV df (lvl + 1) kv.2 ++ (dumpFieldsTail df (lvl + 1) fs' ++
          (nlIndent lvl ++ ['\x7d']))))),
        by rw [dumpV_obj_cons], by decide, by decide, by decide⟩

lemma dumpV_head_of_pos (df lvl : Nat) (v : JValue) (h : 1 ≤ df) :
    ∃ c t, dumpV df lvl v = c :: t ∧ isWsChar c = false ∧ c ≠ ']' ∧ c ≠ '\x7d' := by
  obtain ⟨d, rfl⟩ : ∃ d, df = d + 1 := ⟨df - 1, by omega⟩
  exact dumpV_head d lvl v

lemma nlIndent_length (lvl : Nat) : (nlIndent lvl).length = 1 + 4 * lvl := by
  simp [nlIndent]
  omega

lemma numBreak_cons (c : Char) (l : List Char) :
    numBreak (c :: l) = ((digitVal c).isNone && c != '.') := rfl

lemma allKeysNodup_iff : ∀ l : List String, allKeysNodup l = true ↔ l.Nodup
  | [] => by simp [allKeysNodup]
  | k :: ks => by
    simp only [allKeysNodup, Bool.and_eq_true, Bool.not_eq_true', List.nodup_cons,
      allKeysNodup_iff ks]
    constructor
    · rintro ⟨h1, h2⟩
      refine ⟨fun hm => ?_, h2⟩
      rw [show ks.contains k = ks.elem k from rfl] at h1
      rw [List.elem_iff.mpr hm] at h1
      simp at h1
    · rintro ⟨h1, h2⟩
      refine ⟨?_, h2⟩
      rw [show ks.contains k = ks.elem k from rfl]
      by_cases he : ks.elem k = true
      · exact absurd (List.elem_iff.mp he) h1
      · simpa using he

lemma dictSet_eq_append : ∀ (d : List (String × JValue)) (k : String) (v : JValue),
    k ∉ d.map Prod.fst → dictSet d k v = d ++ [(k, v)]
  | [], _, _, _ => rfl
  | (k', v') :: rest, k, v, h => by
    simp only [List.map_cons, List.mem_cons] at h
    push_neg at h
    simp only [dictSet, if_neg (fun e : k' = k => h.1 e.symm)]
    rw [dictSet_eq_append rest k v h.2]
    simp

/-! ## The round-trip induction -/

/-- The parser reads back a serialised value, at any indentation level,
after any whitespace, for any parser budget exceeding the serialised
length. -/
def ParsesDump (v : JValue) : Prop :=
  ∀ wfuel, wfV wfuel v = true →
  ∀ dfuel, sizeOf v ≤ dfuel →
  ∀ lvl pfuel pre rest, isWsOnly pre = true →
    (dumpV dfuel lvl v).length < pfuel → numBreak rest = true →
    parseVal pfuel (pre ++ (dumpV dfuel lvl v ++ rest)) = some (v, rest)

/-- The element loop reads back a serialised array tail onto any
accumulator. -/
def ParsesElems (e : JValue) (es : List JValue) : Prop :=
  ∀ wfuel, wfV wfuel e = true → (∀ x ∈ es, wfV wfuel x = true) →
  ∀ dfuel, sizeOf e ≤ dfuel → (∀ x ∈ es, sizeOf x ≤ dfuel) →
  ∀ lvlE lvlC pfuel (acc : List JValue) pre rest, isWsOnly pre = true →
    (dumpV dfuel lvlE e).length + (dumpTail dfuel lvlE es).length + 1 < pfuel →
    numBreak rest = true →
    parseElems pfuel
      (pre ++ (dumpV dfuel lvlE e ++ (dumpTail dfuel lvlE es ++
        (nlIndent lvlC ++ (']' :: rest))))) acc
      = some (.arr (acc ++ e :: es), rest)

/-- The member loop reads back a serialised object tail onto any
accumulator whose keys stay disjoint from the incoming ones. -/
def ParsesFields (key : String) (v : JValue) (fs : List (String × JValue)) : Prop :=
  ∀ wfuel, wfV wfuel v = true → (∀ kv ∈ fs, wfV wfuel kv.2 = true) →
  ∀ dfuel, sizeOf v ≤ dfuel → (∀ kv ∈ fs, sizeOf kv.2 ≤ dfuel) →
  ∀ lvlE lvlC pfuel (acc : List (String × JValue)) pre rest, isWsOnly pre = true →
    (acc.map Prod.fst ++ key :: fs.map Prod.fst).Nodup →
    (dumpV dfuel lvlE v).length + (dumpFieldsTail dfuel lvlE fs).length + 1 < pfuel →
    numBreak rest = true →
    parseFields pfuel
      (pre ++ (strChars key ++ (':' :: ' ' :: (dumpV dfuel lvlE v ++
        (dumpFieldsTail dfuel lvlE fs ++ (nlIndent lvlC ++ ('\x7d' :: rest))))))) acc
      = some (.obj (acc ++ (key, v) :: fs), rest)

lemma list_sizeOf_pos (l : List JValue) : 1 ≤ sizeOf l := by
  cases l <;> simp <;> omega

lemma listf_sizeOf_pos (l : List (String × JValue)) : 1 ≤ sizeOf l := by
  cases l <;> simp <;> omega

lemma parse_dump_main : ∀ k : Nat,
    (∀ v : JValue, sizeOf v ≤ k → ParsesDump v) ∧
    (∀ (e : JValue) (es : List JValue), sizeOf e + sizeOf es ≤ k → ParsesElems e es) ∧
    (∀ (key : String) (v : JValue) (fs : List (String × JValue)),
      sizeOf v + sizeOf fs ≤ k → ParsesFields key v fs) := by
  intro k
  induction k using Nat.strong_induction_on with
  | _ k IH =>
    refine ⟨?_, ?_, ?_⟩
    · -- values
      intro v hszk
      intro wfuel hwf dfuel hszd lvl pfuel pre rest hpre hplen hbr
      obtain ⟨p, rfl⟩ : ∃ p, pfuel = p + 1 := ⟨pfuel - 1, by omega⟩
      obtain ⟨df, rfl⟩ : ∃ d, dfuel = d + 1 :=
        ⟨dfuel - 1, by have := jval_sizeOf_pos v; omega⟩
      cases v with
      | null =>
        have hd : dumpV (df + 1) lvl JValue.null = ['n', 'u', 'l', 'l'] := dumpV_null df lvl
        rw [hd, parseVal.eq_def]
        have hsk : skipWs (pre ++ ('n' :: 'u' :: 'l' :: 'l' :: rest)) =
            'n' :: 'u' :: 'l' :: 'l' :: rest := by
          rw [skipWs_append _ _ hpre]
          exact skipWs_cons_not_ws _ _ (by decide)
        simp [hsk]
      | bool b =>
        cases b with
        | true =>
          have hd : dumpV (df + 1) lvl (JValue.bool true) = ['t', 'r', 'u', 'e'] :=
            dumpV_true df lvl
          rw [hd, parseVal.eq_def]
          have hsk : skipWs (pre ++ ('t' :: 'r' :: 'u' :: 'e' :: rest)) =
              't' :: 'r' :: 'u' :: 'e' :: rest := by
            rw [skipWs_append _ _ hpre]
            exact skipWs_cons_not_ws _ _ (by decide)
          simp [hsk]
        | false =>
          have hd : dumpV (df + 1) lvl (JValue.bool false) = ['f', 'a', 'l', 's', 'e'] :=
            dumpV_false df lvl
          rw [hd, parseVal.eq_def]
          have hsk : skipWs (pre ++ ('f' :: 'a' :: 'l' :: 's' :: 'e' :: rest)) =
              'f' :: 'a' :: 'l' :: 's' :: 'e' :: rest := by
            rw [skipWs_append _ _ hpre]
            exact skipWs_cons_not_ws _ _ (by decide)
          simp [hsk]
      | num dd =>
        have hd : dumpV (df + 1) lvl (JValue.num dd) = decimalChars dd := by simp [dumpV]
        rw [hd]
        by_cases hm : dd.m < 0
        · have hdec : decimalChars dd = '-' :: natAbsChars dd.m.natAbs dd.e := by
            simp [decimalChars, hm]
          rw [hdec, parseVal.eq_def]
          have hsk : skipWs (pre ++ ('-' :: (natAbsChars dd.m.natAbs dd.e ++ rest))) =
              '-' :: (natAbsChars dd.m.natAbs dd.e ++ rest) := by
            rw [skipWs_append _ _ hpre]
            exact skipWs_cons_not_ws _ _ (by decide)
          simp [hsk]
          rw [parseNumAfterSign_natAbs true _ _ rest hbr]
          have hcast : -|dd.m| = dd.m := by
            rw [abs_of_neg hm]
            ring
          simp [hcast]
        · have hdec : decimalChars dd = natAbsChars dd.m.natAbs dd.e := by
            simp [decimalChars, hm]
          obtain ⟨d, t, heq, hdlt⟩ := natAbsChars_head dd.m.natAbs dd.e
          obtain ⟨f1, f2, f3, f4, f5, f6, f7, f8, _, _⟩ := digitChar_not_special d hdlt
          rw [hdec, heq, parseVal.eq_def]
          have hsk : skipWs (pre ++ (digitChar d :: (t ++ rest))) =
              digitChar d :: (t ++ rest) := by
            rw [skipWs_append _ _ hpre]
            exact skipWs_cons_not_ws _ _ f1
          simp [hsk, f2, f3, f4, f5, f6, f7, f8, digitVal_digitChar d hdlt]
          rw [show digitChar d :: (t ++ rest) = ((digitChar d :: t) ++ rest) from rfl, ← heq,
            parseNumAfterSign_natAbs false _ _ rest hbr]
          have hcast : |dd.m| = dd.m := abs_of_nonneg (by omega)
          simp [hcast]
      | str s =>
        have hd : dumpV (df + 1) lvl (JValue.str s) =
            '"' :: (escString s.data ++ ['"']) := by simp [dumpV, strChars]
        rw [hd, parseVal.eq_def]
        have hsk : skipWs (pre ++ ('"' :: (escString s.data ++ ('"' :: rest)))) =
            '"' :: (escString s.data ++ ('"' :: rest)) := by
          rw [skipWs_append _ _ hpre]
          exact skipWs_cons_not_ws _ _ (by decide)
        simp [hsk]
        rw [parseStrBody_esc s.data rest]
        have hmk : String.mk s.data = s := rfl
        simp [hmk]
      | arr es =>
        cases es with
        | nil =>
          have hd : dumpV (df + 1) lvl (JValue.arr []) = ['[', ']'] := by simp [dumpV]
          rw [hd, parseVal.eq_def]
          have hsk : skipWs (pre ++ ('[' :: ']' :: rest)) = '[' :: ']' :: rest := by
            rw [skipWs_append _ _ hpre]
            exact skipWs_cons_not_ws _ _ (by decide)
          have hsk2 : skipWs (']' :: rest) = ']' :: rest :=
            skipWs_cons_not_ws _ _ (by decide)
          simp [hsk, hsk2]
        | cons e es =>
          have hj : sizeOf e + sizeOf es < k := by
            have h1 := list_sizeOf_pos es
            simp at hszk
            omega
          have QIH := (IH (sizeOf e + sizeOf es) hj).2.1 e es (le_refl _)
          obtain ⟨w, rfl⟩ : ∃ w, wfuel = w + 1 := by
            cases wfuel with
            | zero => simp [wfV] at hwf
            | succ w => exact ⟨w, rfl⟩
          have hwfe : wfV w e = true := by
            simp only [wfV, List.all_eq_true] at hwf
            exact hwf e (by simp)
          have hwfes : ∀ x ∈ es, wfV w x = true := by
            intro x hx
            simp only [wfV, List.all_eq_true] at hwf
            exact hwf x (by simp [hx])
          have hsze : sizeOf e ≤ df := by
            simp at hszd
            have := list_sizeOf_pos es
            omega
          have hszes : ∀ x ∈ es, sizeOf x ≤ df := by
            intro x hx
            have := List.sizeOf_lt_of_mem hx
            simp at hszd
            have := jval_sizeOf_pos e
            omega
          have hlen : (dumpV df (lvl + 1) e).length + (dumpTail df (lvl + 1) es).length + 1
              < p := by
            rw [dumpV_arr_cons] at hplen
            simp only [List.length_cons, List.length_append, nlIndent_length,
              List.length_singleton] at hplen
            omega
          obtain ⟨c0, t0, hdve, hnws0, hnrb0, _⟩ := dumpV_head_of_pos df (lvl + 1) e
            (by have := jval_sizeOf_pos e; omega)
          have happ := QIH w hwfe hwfes df hsze hszes (lvl + 1) lvl p [] [] rest
            (by decide) hlen hbr
          simp only [List.nil_append] at happ
          rw [dumpV_arr_cons, parseVal.eq_def]
          have hskA : skipWs (pre ++ ('[' :: (nlIndent (lvl + 1) ++ (dumpV df (lvl + 1) e ++
              (dumpTail df (lvl + 1) es ++ (nlIndent lvl ++ (']' :: rest))))))) =
              '[' :: (nlIndent (lvl + 1) ++ (dumpV df (lvl + 1) e ++
                (dumpTail df (lvl + 1) es ++ (nlIndent lvl ++ (']' :: rest))))) := by
            rw [skipWs_append _ _ hpre]
            exact skipWs_cons_not_ws _ _ (by decide)
          have hskB : skipWs (nlIndent (lvl + 1) ++ (dumpV df (lvl + 1) e ++
              (dumpTail df (lvl + 1) es ++ (nlIndent lvl ++ (']' :: rest))))) =
              c0 :: (t0 ++ (dumpTail df (lvl + 1) es ++ (nlIndent lvl ++ (']' :: rest)))) := by
            rw [skipWs_append _ _ (isWsOnly_nlIndent _)]
            rw [show dumpV df (lvl + 1) e ++ (dumpTail df (lvl + 1) es ++ (nlIndent lvl ++
              (']' :: rest))) = c0 :: (t0 ++ (dumpTail df (lvl + 1) es ++
                (nlIndent lvl ++ (']' :: rest)))) by rw [hdve]; rfl]
            exact skipWs_cons_not_ws _ _ hnws0
          simp [hskA, hskB, hnrb0]
          rw [show c0 :: (t0 ++ (dumpTail df (lvl + 1) es ++ (nlIndent lvl ++
            (']' :: rest)))) = dumpV df (lvl + 1) e ++ (dumpTail df (lvl + 1) es ++
              (nlIndent lvl ++ (']' :: rest))) by rw [hdve]; rfl, happ]
      | obj fs =>
        cases fs with
        | nil =>
          have hd : dumpV (df + 1) lvl (JValue.obj []) = ['\x7b', '\x7d'] := by simp [dumpV]
          rw [hd, parseVal.eq_def]
          have hsk : skipWs (pre ++ ('\x7b' :: '\x7d' :: rest)) = '\x7b' :: '\x7d' :: rest := by
            rw [skipWs_append _ _ hpre]
            exact skipWs_cons_not_ws _ _ (by decide)
          have hsk2 : skipWs ('\x7d' :: rest) = '\x7d' :: rest :=
            skipWs_cons_not_ws _ _ (by decide)
          simp [hsk, hsk2]
        | cons kv fs =>
          obtain ⟨key, val⟩ := kv
          have hj : sizeOf val + sizeOf fs < k := by
            simp at hszk
            omega
          have RIH := (IH (sizeOf val + sizeOf fs) hj).2.2 key val fs (le_refl _)
          obtain ⟨w, rfl⟩ : ∃ w, wfuel = w + 1 := by
            cases wfuel with
            | zero => simp [wfV] at hwf
            | succ w => exact ⟨w, rfl⟩
          have hwfparts : allKeysNodup (key :: fs.map Prod.fst) = true ∧
              wfV w val = true ∧ ∀ kv2 ∈ fs, wfV w kv2.2 = true := by
            simp only [wfV, Bool.and_eq_true, List.all_eq_true, List.map_cons] at hwf
            exact ⟨hwf.1, (hwf.2 (key, val) (by simp)), fun kv2 h2 => hwf.2 kv2 (by simp [h2])⟩
          have hsze : sizeOf val ≤ df := by
            simp at hszd
            have := listf_sizeOf_pos fs
            omega
          have hszfs : ∀ kv2 ∈ fs, sizeOf kv2.2 ≤ df := by
            intro kv2 h2
            have h3 := List.sizeOf_lt_of_mem h2
            obtain ⟨k2, v2⟩ := kv2
            simp at hszd h3 ⊢
            omega
          have hnd : (([] : List (String × JValue)).map Prod.fst ++
              key :: fs.map Prod.fst).Nodup := by
            simp only [List.map_nil, List.nil_append]
            exact (allKeysNodup_iff _).mp hwfparts.1
          have hlen : (dumpV df (lvl + 1) val).length +
              (dumpFieldsTail df (lvl + 1) fs).length + 1 < p := by
            rw [dumpV_obj_cons] at hplen
            simp only [List.length_cons, List.length_append, nlIndent_length,
              List.length_singleton] at hplen
            omega
          have happ := RIH w hwfparts.2.1 hwfparts.2.2 df hsze hszfs (lvl + 1) lvl p [] []
            rest (by decide) hnd hlen hbr
          simp only [List.nil_append] at happ
          rw [dumpV_obj_cons, parseVal.eq_def]
          have hskA : skipWs (pre ++ ('\x7b' :: (nlIndent (lvl + 1) ++ (strChars key ++
              (':' :: ' ' :: (dumpV df (lvl + 1) val ++ (dumpFieldsTail df (lvl + 1) fs ++
                (nlIndent lvl ++ ('\x7d' :: rest))))))))) =
              '\x7b' :: (nlIndent (lvl + 1) ++ (strChars key ++
                (':' :: ' ' :: (dumpV df (lvl + 1) val ++ (dumpFieldsTail df (lvl + 1) fs ++
                  (nlIndent lvl ++ ('\x7d' :: rest))))))) := by
            rw [skipWs_append _ _ hpre]
            exact skipWs_cons_not_ws _ _ (by decide)
          have hskB : skipWs (nlIndent (lvl + 1) ++ (strChars key ++
              (':' :: ' ' :: (dumpV df (lvl + 1) val ++ (dumpFieldsTail df (lvl + 1) fs ++
                (nlIndent lvl ++ ('\x7d' :: rest))))))) =
              '"' :: (escString key.data ++ ('"' :: (':' :: ' ' ::
                (dumpV df (lvl + 1) val ++ (dumpFieldsTail df (lvl + 1) fs ++
                  (nlIndent lvl ++ ('\x7d' :: rest))))))) := by
            rw [skipWs_append _ _ (isWsOnly_nlIndent _)]
            rw [show strChars key ++ (':' :: ' ' :: (dumpV df (lvl + 1) val ++
              (dumpFieldsTail df (lvl + 1) fs ++ (nlIndent lvl ++ ('\x7d' :: rest))))) =
              '"' :: (escString key.data ++ ('"' :: (':' :: ' ' ::
                (dumpV df (lvl + 1) val ++ (dumpFieldsTail df (lvl + 1) fs ++
                  (nlIndent lvl ++ ('\x7d' :: rest))))))) by simp [strChars]]
            exact skipWs_cons_not_ws _ _ (by decide)
          simp only [strChars, List.cons_append, List.nil_append, List.append_assoc] at happ
          simp [hskA, hskB, happ]
    · -- array elements
      intro e es hszk
      intro wfuel hwfe hwfes dfuel hsze hszes lvlE lvlC pfuel acc pre rest hpre hplen hbr
      obtain ⟨p, rfl⟩ : ∃ p, pfuel = p + 1 := ⟨pfuel - 1, by omega⟩
      have hje : sizeOf e < k := by
        have := list_sizeOf_pos es
        omega
      have PIH := (IH (sizeOf e) hje).1 e (le_refl _)
      cases es with
      | nil =>
        rw [dumpTail_nil] at hplen ⊢
        simp only [List.nil_append] at hplen ⊢
        have hbrT : numBreak (nlIndent lvlC ++ (']' :: rest)) = true := numBreak_nlIndent _ _
        have happV := PIH wfuel hwfe dfuel hsze lvlE p pre (nlIndent lvlC ++ (']' :: rest))
          hpre (by omega) hbrT
        rw [parseElems.eq_def]
        have hskC : skipWs (nlIndent lvlC ++ (']' :: rest)) = ']' :: rest := by
          rw [skipWs_append _ _ (isWsOnly_nlIndent _)]
          exact skipWs_cons_not_ws _ _ (by decide)
        simp [happV, hskC]
      | cons e2 es' =>
        have hj2 : sizeOf e2 + sizeOf es' < k := by
          have := jval_sizeOf_pos e
          simp at hszk
          omega
        have QIH2 := (IH (sizeOf e2 + sizeOf es') hj2).2.1 e2 es' (le_refl _)
        rw [dumpTail_cons] at hplen ⊢
        have hlenT : (dumpTail dfuel lvlE (e2 :: es')).length =
            1 + (nlIndent lvlE).length + (dumpV dfuel lvlE e2).length +
              (dumpTail dfuel lvlE es').length := by
          rw [dumpTail_cons]
          simp [List.length_append]
          omega
        simp only [List.cons_append, List.append_assoc] at hplen ⊢
        have hbrT : numBreak (',' :: (nlIndent lvlE ++ (dumpV dfuel lvlE e2 ++
            (dumpTail dfuel lvlE es' ++ (nlIndent lvlC ++ (']' :: rest)))))) = true := by
          rw [numBreak_cons]
          decide
        have hfe : (dumpV dfuel lvlE e).length < p := by
          simp only [List.length_cons, List.length_append, nlIndent_length] at hplen
          omega
        have happV := PIH wfuel hwfe dfuel hsze lvlE p pre
          (',' :: (nlIndent lvlE ++ (dumpV dfuel lvlE e2 ++
            (dumpTail dfuel lvlE es' ++ (nlIndent lvlC ++ (']' :: rest))))))
          hpre hfe hbrT
        rw [parseElems.eq_def]
        have hskD : skipWs (',' :: (nlIndent lvlE ++ (dumpV dfuel lvlE e2 ++
            (dumpTail dfuel lvlE es' ++ (nlIndent lvlC ++ (']' :: rest)))))) =
            ',' :: (nlIndent lvlE ++ (dumpV dfuel lvlE e2 ++
              (dumpTail dfuel lvlE es' ++ (nlIndent lvlC ++ (']' :: rest))))) :=
          skipWs_cons_not_ws _ _ (by decide)
        have hlen2 : (dumpV dfuel lvlE e2).length + (dumpTail dfuel lvlE es').length + 1
            < p := by
          simp only [List.length_cons, List.length_append, nlIndent_length] at hplen
          omega
        have happ2 := QIH2 wfuel (hwfes e2 (by simp)) (fun x hx => hwfes x (by simp [hx]))
          dfuel (hszes e2 (by simp)) (fun x hx => hszes x (by simp [hx])) lvlE lvlC p
          (acc ++ [e]) (nlIndent lvlE) rest (isWsOnly_nlIndent _) hlen2 hbr
        simp [happV, hskD, happ2]
    · -- object members
      intro key v fs hszk
      intro wfuel hwfv hwffs dfuel hszv hszfs lvlE lvlC pfuel acc pre rest hpre hnd hplen hbr
      obtain ⟨p, rfl⟩ : ∃ p, pfuel = p + 1 := ⟨pfuel - 1, by omega⟩
      have hjv : sizeOf v < k := by
        have := listf_sizeOf_pos fs
        omega
      have PIH := (IH (sizeOf v) hjv).1 v (le_refl _)
      have hkey : key ∉ acc.map Prod.fst := by
        rw [List.nodup_append] at hnd
        intro hmem
        exact (hnd.2.2 hmem) (by simp)
      have hmk : String.mk key.data = key := rfl
      cases fs with
      | nil =>
        rw [dumpFieldsTail_nil] at hplen ⊢
        simp only [List.nil_append] at hplen ⊢
        have hbrT : numBreak (nlIndent lvlC ++ ('\x7d' :: rest)) = true := numBreak_nlIndent _ _
        have happV := PIH wfuel hwfv dfuel hszv (lvlE) p [' ']
          (nlIndent lvlC ++ ('\x7d' :: rest)) (by decide) (by omega) hbrT
        simp only [List.cons_append, List.nil_append] at happV
        rw [parseFields.eq_def]
        have hskE : skipWs (pre ++ ('"' :: (escString key.data ++ ('"' :: (':' :: ' ' ::
            (dumpV dfuel lvlE v ++ (nlIndent lvlC ++ ('\x7d' :: rest)))))))) =
            '"' :: (escString key.data ++ ('"' :: (':' :: ' ' ::
              (dumpV dfuel lvlE v ++ (nlIndent lvlC ++ ('\x7d' :: rest)))))) := by
          rw [skipWs_append _ _ hpre]
          exact skipWs_cons_not_ws _ _ (by decide)
        have hskF : skipWs (':' :: ' ' :: (dumpV dfuel lvlE v ++
            (nlIndent lvlC ++ ('\x7d' :: rest)))) = ':' :: ' ' :: (dumpV dfuel lvlE v ++
              (nlIndent lvlC ++ ('\x7d' :: rest))) :=
          skipWs_cons_not_ws _ _ (by decide)
        have hskC : skipWs (nlIndent lvlC ++ ('\x7d' :: rest)) = '\x7d' :: rest := by
          rw [skipWs_append _ _ (isWsOnly_nlIndent _)]
          exact skipWs_cons_not_ws _ _ (by decide)
        have hstr : strChars key ++ (':' :: ' ' :: (dumpV dfuel lvlE v ++
            (nlIndent lvlC ++ ('\x7d' :: rest)))) =
            '"' :: (escString key.data ++ ('"' :: (':' :: ' ' :: (dumpV dfuel lvlE v ++
              (nlIndent lvlC ++ ('\x7d' :: rest)))))) := by
          simp [strChars]
        rw [hstr]
        simp [hskE, hskF, hskC, parseStrBody_esc, happV, hmk,
          dictSet_eq_append acc key v hkey]
      | cons kv2 fs' =>
        obtain ⟨key2, v2⟩ := kv2
        have hj2 : sizeOf v2 + sizeOf fs' < k := by
          have := jval_sizeOf_pos v
          simp at hszk
          omega
        have RIH2 := (IH (sizeOf v2 + sizeOf fs') hj2).2.2 key2 v2 fs' (le_refl _)
        rw [dumpFieldsTail_cons] at hplen ⊢
        simp only [List.cons_append, List.append_assoc] at hplen ⊢
        have hbrT : numBreak (',' :: (nlIndent lvlE ++ (strChars key2 ++ (':' :: ' ' ::
            (dumpV dfuel lvlE v2 ++ (dumpFieldsTail dfuel lvlE fs' ++
              (nlIndent lvlC ++ ('\x7d' :: rest)))))))) = true := by
          rw [numBreak_cons]
          decide
        have hfe : (dumpV dfuel lvlE v).length < p := by
          simp only [List.length_cons, List.length_append, nlIndent_length] at hplen
          omega
        have happV := PIH wfuel hwfv dfuel hszv lvlE p [' ']
          (',' :: (nlIndent lvlE ++ (strChars key2 ++ (':' :: ' ' ::
            (dumpV dfuel lvlE v2 ++ (dumpFieldsTail dfuel lvlE fs' ++
              (nlIndent lvlC ++ ('\x7d' :: rest))))))))
          (by decide) hfe hbrT
        simp only [List.cons_append, List.nil_append] at happV
        rw [parseFields.eq_def]
        have hskE : skipWs (pre ++ ('"' :: (escString key.data ++ ('"' :: (':' :: ' ' ::
            (dumpV dfuel lvlE v ++ (',' :: (nlIndent lvlE ++ (strChars key2 ++ (':' :: ' ' ::
              (dumpV dfuel lvlE v2 ++ (dumpFieldsTail dfuel lvlE fs' ++
                (nlIndent lvlC ++ ('\x7d' :: rest)))))))))))))) =
            '"' :: (escString key.data ++ ('"' :: (':' :: ' ' ::
              (dumpV dfuel lvlE v ++ (',' :: (nlIndent lvlE ++ (strChars key2 ++ (':' :: ' ' ::
                (dumpV dfuel lvlE v2 ++ (dumpFieldsTail dfuel lvlE fs' ++
                  (nlIndent lvlC ++ ('\x7d' :: rest)))))))))))) := by
          rw [skipWs_append _ _ hpre]
          exact skipWs_cons_not_ws _ _ (by decide)
        have hskF : ∀ l : List Char, skipWs (':' :: ' ' :: l) = ':' :: ' ' :: l :=
          fun l => skipWs_cons_not_ws _ _ (by decide)
        have hskD : ∀ l : List Char, skipWs (',' :: l) = ',' :: l :=
          fun l => skipWs_cons_not_ws _ _ (by decide)
        have hnd2 : ((acc ++ [(key, v)]).map Prod.fst ++ key2 :: fs'.map Prod.fst).Nodup := by
          simpa [List.append_assoc] using hnd
        have hlen2 : (dumpV dfuel lvlE v2).length +
            (dumpFieldsTail dfuel lvlE fs').length + 1 < p := by
          simp only [List.length_cons, List.length_append, nlIndent_length,
            strChars] at hplen
          omega
        have happ2 := RIH2 wfuel (hwffs (key2, v2) (by simp))
          (fun kv3 h3 => hwffs kv3 (by simp [h3])) dfuel (hszfs (key2, v2) (by simp))
          (fun kv3 h3 => hszfs kv3 (by simp [h3])) lvlE lvlC p
          (acc ++ [(key, v)]) (nlIndent lvlE) rest (isWsOnly_nlIndent _) hnd2 hlen2 hbr
        have hstr : strChars key ++ (':' :: ' ' :: (dumpV dfuel lvlE v ++ (',' ::
            (nlIndent lvlE ++ (strChars key2 ++ (':' :: ' ' :: (dumpV dfuel lvlE v2 ++
              (dumpFieldsTail dfuel lvlE fs' ++ (nlIndent lvlC ++ ('\x7d' :: rest)))))))))) =
            '"' :: (escString key.data ++ ('"' :: (':' :: ' ' :: (dumpV dfuel lvlE v ++
              (',' :: (nlIndent lvlE ++ (strChars key2 ++ (':' :: ' ' ::
                (dumpV dfuel lvlE v2 ++ (dumpFieldsTail dfuel lvlE fs' ++
                  (nlIndent lvlC ++ ('\x7d' :: rest)))))))))))) := by
          simp [strChars]
        rw [hstr]
        simp [hskE, hskF, hskD, parseStrBody_esc, happV, hmk,
          dictSet_eq_append acc key v hkey, happ2]

/-- C8: serialising an Article collection with `json.dump(..., indent=4,
ensure_ascii=False)` and reading it back with `json.load` yields an equal
collection — same records, same order, same field values.  `fuel` is the
serialiser's recursion budget (any value at least `sizeOf` the collection
is exact); the well-formedness hypothesis says all object key lists are
duplicate-free, which holds of every collection coming from Python dicts. -/
theorem json_roundtrip (arts : List Article) (fuel : Nat)
    (hfuel : sizeOf (JValue.arr (arts.map JValue.obj)) ≤ fuel)
    (hwf : wfV fuel (JValue.arr (arts.map JValue.obj)) = true) :
    loads (dumps fuel (JValue.arr (arts.map JValue.obj))) =
      some (JValue.arr (arts.map JValue.obj)) := by
  have hp := (parse_dump_main (sizeOf (JValue.arr (arts.map JValue.obj)))).1
    (JValue.arr (arts.map JValue.obj)) (le_refl _) fuel hwf fuel hfuel 0
    ((dumpV fuel 0 (JValue.arr (arts.map JValue.obj))).length + 1) [] []
    (by decide) (by omega) (by rfl)
  simp only [List.nil_append, List.append_nil] at hp
  have hdata : (String.mk (dumpV fuel 0 (JValue.arr (arts.map JValue.obj)))).data =
      dumpV fuel 0 (JValue.arr (arts.map JValue.obj)) := rfl
  show loads (String.mk (dumpV fuel 0 (JValue.arr (arts.map JValue.obj)))) =
    some (JValue.arr (arts.map JValue.obj))
  rw [loads, hdata, hp]
  simp [skipWs]

/-- Concrete two-record collection exercising escapes, unicode, decimals,
booleans, null and nesting, used to witness the round trip. -/
def artsRT : List Article :=
  [[("title", .str "Markets \"rally\" on strong earnings"), ("score", .num ⟨95, 2⟩)],
   [("title", .str "ünïcødé\nheadline"), ("ok", .bool true), ("count", .num ⟨-12, 0⟩),
    ("source", .obj [("id", .null), ("tags", .arr [.str "a", .str "b"])])]]

/-- Witness for C8 at a concrete collection and budget. -/
theorem json_roundtrip_witness :
    loads (dumps 100000 (JValue.arr (artsRT.map JValue.obj))) =
      some (JValue.arr (artsRT.map JValue.obj)) :=
  json_roundtrip artsRT 100000 (by decide) (by decide)

end GlobalSentiment
